import Mathlib

/-!
Verification of the optipuls optimal-control core (src/core.py, src/splines.py,
src/optipuls/splines.py) against its natural-language specification.

The PDE/FEM collaborators (dolfin assembly, nonlinear solves, point evaluation)
are external services; they are modelled as abstract function parameters.  All
bookkeeping that the source performs itself (loop structure, indexing, step-size
updates, clipping, validation, exception handling, coefficient algebra) is
embedded directly, over exact rationals.
-/

/-! ## Module-level constants of src/core.py -/

/-- Horizon length: `T, Nt = 0.010, 30` (core.py line 20), `T = 0.010`. -/
def T : ℚ := 1/100

/-- The module-level global `Nt = 30` (core.py line 20). -/
def NtGlobal : ℕ := 30

/-- Time step: `dt = T/Nt` (core.py line 21). -/
def dt : ℚ := T / NtGlobal

/-- Point-objective weight `beta_w = 1.` (core.py line 34). -/
def beta_w : ℚ := 1

/-- Gradient-norm tolerance `tolerance = 10**-18` (core.py line 37). -/
def tolerance : ℚ := 1/10^18

/-- Threshold temperature `threshold_temp = 1102.` (core.py line 40). -/
def threshold_temp : ℚ := 1102

/-- Point-objective exponent `pow_ = 6.` (core.py line 41).  The source stores
it as a float; every use is as an integer power or its reciprocal, so it is
embedded as the natural number 6. -/
def pow_ : ℕ := 6

/-! ## Descent driver (core.py, gradient_descent, lines 346-401)

`solve_forward`, `J` and the adjoint/gradient stack are external to the driver
logic; the driver only observes the cost of a control (`J(solve_forward(c,
init), _)`, where `J = J_welding` ignores its control argument) and its
gradient (`Dj(solve_adjoint(solve_forward(c, init), c), c)`).  Both composites
are deterministic functions of the control, so they are abstracted as oracles
`costOf` and `gradOf`. -/

/-- One component of `np.clip(a, 0, 1)`. -/
def clip1 (x : ℚ) : ℚ := min (max x 0) 1

/-- Elementwise `np.clip(c, 0, 1)`. -/
def clip01 (c : List ℚ) : List ℚ := c.map clip1

/-- Proposal of the line search: `control_next = np.clip(control - s*D, 0, 1)`
(core.py line 384). -/
def proposeControl (control D : List ℚ) (s : ℚ) : List ℚ :=
  clip01 (List.zipWith (fun c d => c - s * d) control D)

/-- Result of one inner line-search loop.  `trace` is ghost instrumentation
recording the step size `s` at which every proposal was taken; it does not
influence the computation. -/
structure LSResult where
  control_next : List ℚ
  cost_next : ℚ
  sAfter : ℚ
  trace : List ℚ
deriving DecidableEq

/-- The inner `while (cost_next >= cost) or first_try` loop of
`gradient_descent` (core.py lines 382-391), with explicit fuel standing for
the number of loop-body executions the run is observed for (the source loop is
unbounded).  Each body proposes at the current `s`, evaluates the cost of the
proposal, and then halves `s` unless this was the very first body
(`if not first_try: s /= 2`). -/
def lineSearchAux (costOf : List ℚ → ℚ) (control D : List ℚ) (cost : ℚ) :
    ℕ → ℚ → ℚ → Bool → List ℚ → List ℚ → Option LSResult
  | 0, _, _, _, _, _ => none
  | fuel+1, s, cost_next, first_try, control_next, trace =>
    if cost ≤ cost_next ∨ first_try = true then
      lineSearchAux costOf control D cost fuel (if first_try then s else s / 2)
        (costOf (proposeControl control D s)) false (proposeControl control D s)
        (trace ++ [s])
    else
      some ⟨control_next, cost_next, s, trace⟩

/-- Entry into the line search at the top of an outer iteration: `cost_next`
equals `cost` there (`cost_next = cost` before the first outer iteration, and
`cost = cost_next` after each acceptance), and `first_try = True`. -/
def lineSearch (costOf : List ℚ → ℚ) (control D : List ℚ) (cost : ℚ)
    (fuel : ℕ) (s : ℚ) : Option LSResult :=
  lineSearchAux costOf control D cost fuel s cost true control []

/-- The outer `for i in range(iter_max)` loop of `gradient_descent`
(core.py lines 372-396).  Per iteration: gradient, squared-norm convergence
check against `tolerance`, line search, then `s *= 2`, acceptance of the new
control/cost and appending of the iteration record.  Returns `none` when the
inner loop exceeds its observation fuel. -/
def gradientDescentAux (costOf : List ℚ → ℚ) (gradOf : List ℚ → List ℚ)
    (lsFuel : ℕ) :
    ℕ → List ℚ → ℚ → ℚ → List (List ℚ) → Option (List (List ℚ))
  | 0, _, _, _, records => some records
  | i+1, control, cost, s, records =>
    if dt * ((gradOf control).map (fun x => x^2)).sum < tolerance then
      some records
    else
      match lineSearch costOf control (gradOf control) cost lsFuel s with
      | none => none
      | some r =>
          gradientDescentAux costOf gradOf lsFuel i r.control_next r.cost_next
            (r.sAfter * 2) (records ++ [r.control_next])

/-- `gradient_descent(control, init, iter_max, s)` (core.py lines 346-401):
the initial control is appended to `controls_iterations` as-is, its cost is
evaluated, then the outer loop runs. -/
def gradient_descent (costOf : List ℚ → ℚ) (gradOf : List ℚ → List ℚ)
    (control : List ℚ) (lsFuel iter_max : ℕ) (s : ℚ) :
    Option (List (List ℚ)) :=
  gradientDescentAux costOf gradOf lsFuel iter_max control (costOf control) s
    [control]

/-- Geometric halving sequence `[s, s/2, s/4, ..., s/2^(n-1)]`. -/
def geomHalving (s : ℚ) : ℕ → List ℚ
  | 0 => []
  | n+1 => geomHalving s n ++ [s / 2^n]

/-- The step sizes at which the source line search actually takes its `n`
proposals: `s` for the first proposal and then `s, s/2, s/4, ...` for the
rest (the first failed proposal does not halve `s`). -/
def actualTrace (s : ℚ) : ℕ → List ℚ
  | 0 => []
  | n+1 => s :: geomHalving s n

/-- Entrywise box constraint `[0, 1]` on a control trajectory. -/
def boxList (l : List ℚ) : Prop := ∀ x ∈ l, 0 ≤ x ∧ x ≤ 1

/-! ## Gradient assembler and cost functional (core.py, Dj lines 317-343,
J_welding lines 500-511)

Both functions iterate over the module-level global `Nt = 30`, not over
`len(control)`; the numpy row accesses `evolution_adj[i]` / `evolution[k]`
raise `IndexError` when the index reaches the number of rows, which is
modelled by `Option`. -/

/-- Consecutive row reads `ev[0], ..., ev[n-1]` of a numpy 2-d array; `none`
models the `IndexError` raised as soon as an index is out of range. -/
def rowsRange (ev : List (List ℚ)) : ℕ → Option (List (List ℚ))
  | 0 => some []
  | n+1 =>
    match rowsRange ev n, ev.get? n with
    | some acc, some r => some (acc ++ [r])
    | _, _ => none

/-- `Dj(evolution_adj, control)` (core.py lines 317-343): for `i in
range(Nt)` with the global `Nt`, set `p` from `evolution_adj[i]` and take
`z[i] = assemble(p * x[0] * ds(1))`; the active return is `Dj = -laser_pd*z`
(the `alpha` regularisation line is commented out, so `control` is unused).
The boundary-integral assembly is the external FEM collaborator
`assembleLaserBnd`, and `laser_pd` is the (π-valued, hence irrational)
constant `absorb*P_YAG/(pi*R_laser**2)`, passed in as a parameter. -/
def Dj (assembleLaserBnd : List ℚ → ℚ) (laser_pd : ℚ)
    (evolution_adj : List (List ℚ)) (control : List ℚ) : Option (List ℚ) :=
  let _ := control
  (rowsRange evolution_adj NtGlobal).map
    (fun rows => rows.map (fun p => -laser_pd * assembleLaserBnd p))

/-- The accumulation loop of `J_welding(evolution, control)` (core.py lines
500-506): `for k in range(1, Nt+1)` with the global `Nt`, read
`evolution[k]` and add `float_power(theta(target_point), pow_)`.  The value
returned by `J_welding` is a function of this sum alone; the loop is where
the out-of-range indexing occurs.  `ptEval` is the external point-evaluation
collaborator `theta(target_point)`. -/
def J_weldingPointSum (ptEval : List ℚ → ℚ) (evolution : List (List ℚ)) :
    Option ℚ :=
  (rowsRange (evolution.drop 1) NtGlobal).map
    (fun rows => (rows.map (fun th => (ptEval th)^pow_)).sum)

/-! ## Adjoint point-source multiplier (core.py, solve_adjoint lines 274-281)

The source computes `sum_ = Σ_{k=1..Nt} float_power(theta_k(pt), pow_)`,
`norm = float_power(sum_, 1/pow_)` and
`M = beta_w * (norm - threshold_temp) * float_power(sum_, 1/pow_ - 1)`.
Over positive reals, `sum_^(1/pow_ - 1) = sum_^(1/pow_) / sum_ = norm/sum_`,
which is how the irrational power is embedded exactly in ℚ, relative to the
defining relation `norm^pow_ = sum_`, `0 < norm`. -/

/-- The accumulated point-evaluation sum `sum_` of `solve_adjoint`, over the
per-step point values `thetaAt k = evolution[k](target_point)`. -/
def pointEvalSum (thetaAt : ℕ → ℚ) (Nt : ℕ) : ℚ :=
  ((List.range Nt).map (fun k => (thetaAt (k+1))^pow_)).sum

/-- The source's multiplier `M` as a function of the pair `(sum_, norm)`:
`beta_w * (norm - threshold_temp) * sum_^(1/pow_ - 1)`, with the last factor
written exactly as `norm / sum_`. -/
def M_adjoint (sum_ norm : ℚ) : ℚ :=
  beta_w * (norm - threshold_temp) * (norm / sum_)

/-- The multiplier as the specification words it: "(weighted deviation from
the threshold) × (norm raised to p−1)". -/
def M_specClaim (sum_ norm : ℚ) : ℚ :=
  let _ := sum_
  beta_w * (norm - threshold_temp) * norm^(pow_ - 1)

/-! ## Adjoint backward sweep (core.py, solve_adjoint lines 262-314)

Fields live in an abstract dof-vector type `α`.  The per-step assemble-and-
solve (`F`, `dF = derivative(F, theta_next, v)`, `assemble_system`,
`PointSource`, `solve`) is the external collaborator `asolve`; it receives
every datum the source feeds into that step: `theta_prev`, `theta_next`, the
control `control[k-1]`, the optional second-residual data
`(theta_next_, p_next, control[k])` present exactly when `k < Nt`, whether
the `ValueError` fallback replaced the right-hand side by zero, and the
point-source magnitude `-M * theta_next(pt)^(pow_-1)`.  Whether the
right-hand-side assembly raises `ValueError` at step `k` is abstracted as the
predicate `rhsVoid k`; the source wraps the assembly of every step in
`try/except`, so a raised `ValueError` always results in the zero
substitution (`assemble_system(lhs(dF), Constant(0)*v*dx)`).  `subs` is ghost
instrumentation recording the steps at which the substitution fired.
The flag `enable` switches on the commented-out line
`theta_next_.vector().set_local(evolution[k+1])` (core.py line 292). -/

/-- Scratch state of the backward sweep: the three persistent `Function(V)`
objects plus the rows written so far (`acc`, newest first at the head,
i.e. index order) and the ghost substitution trace. -/
structure AdjState (α : Type) where
  theta_next : α
  theta_next_ : α
  p_next : α
  acc : List α
  subs : List ℕ

/-- One body of the backward loop `for k in range(Nt, 0, -1)`. -/
def adjStep {α : Type} (asolve : α → α → ℚ → Option (α × α × ℚ) → Bool → ℚ → α)
    (ptEval : α → ℚ) (ev : ℕ → α) (ctrl : ℕ → ℚ) (Nt : ℕ) (M : ℚ)
    (rhsVoid : ℕ → Bool) (enable : Bool) (k : ℕ) (st : AdjState α) :
    AdjState α :=
  let theta_prev := ev (k - 1)
  let tnu : α := if enable = true ∧ k < Nt then ev (k+1) else st.theta_next_
  let second : Option (α × α × ℚ) :=
    if k < Nt then some (tnu, st.p_next, ctrl k) else none
  let zeroSub := rhsVoid k
  let psMag : ℚ := -M * (ptEval st.theta_next)^(pow_ - 1)
  let p := asolve theta_prev st.theta_next (ctrl (k-1)) second zeroSub psMag
  ⟨theta_prev, st.theta_next, p, p :: st.acc,
    st.subs ++ (if zeroSub then [k] else [])⟩

/-- Runs the backward loop from index `k` down to 1. -/
def adjRun {α : Type} (asolve : α → α → ℚ → Option (α × α × ℚ) → Bool → ℚ → α)
    (ptEval : α → ℚ) (ev : ℕ → α) (ctrl : ℕ → ℚ) (Nt : ℕ) (M : ℚ)
    (rhsVoid : ℕ → Bool) (enable : Bool) : ℕ → AdjState α → AdjState α
  | 0, st => st
  | k+1, st =>
    adjRun asolve ptEval ev ctrl Nt M rhsVoid enable k
      (adjStep asolve ptEval ev ctrl Nt M rhsVoid enable (k+1) st)

/-- The state at entry of backward iteration `Nt - d`, i.e. after `d` bodies
have run, starting from the pre-loop state (`theta_next` loaded with
`evolution[Nt]`, the other two `Function(V)` objects fresh zero fields `z`).
Meaningful for `d < Nt`. -/
def adjEntry {α : Type} (asolve : α → α → ℚ → Option (α × α × ℚ) → Bool → ℚ → α)
    (ptEval : α → ℚ) (ev : ℕ → α) (ctrl : ℕ → ℚ) (Nt : ℕ) (M : ℚ)
    (rhsVoid : ℕ → Bool) (enable : Bool) (z : α) : ℕ → AdjState α
  | 0 => ⟨ev Nt, z, z, [], []⟩
  | d+1 =>
    adjStep asolve ptEval ev ctrl Nt M rhsVoid enable (Nt - d)
      (adjEntry asolve ptEval ev ctrl Nt M rhsVoid enable z d)

/-- `solve_adjoint`'s full backward sweep: returns the adjoint trajectory
(rows 0..Nt-1 computed backward, row Nt the initial zero field) together with
the ghost list of steps at which the zero-right-hand-side substitution fired. -/
def solve_adjointModel {α : Type}
    (asolve : α → α → ℚ → Option (α × α × ℚ) → Bool → ℚ → α)
    (ptEval : α → ℚ) (ev : ℕ → α) (ctrl : ℕ → ℚ) (Nt : ℕ) (M : ℚ)
    (rhsVoid : ℕ → Bool) (enable : Bool) (z : α) : List α × List ℕ :=
  let fin := adjRun asolve ptEval ev ctrl Nt M rhsVoid enable Nt
    ⟨ev Nt, z, z, [], []⟩
  (fin.acc ++ [z], fin.subs)

/-- The steps in `[1..k]`, listed in descending order, at which `v` holds:
the substitution steps a full backward sweep from `k` accumulates. -/
def downFilter (v : ℕ → Bool) : ℕ → List ℕ
  | 0 => []
  | k+1 => (if v (k+1) then [k+1] else []) ++ downFilter v k

/-- Modelled from the spec: the specification's error-handling rule for the
backward sweep ("the one documented recoverable exception is the
terminal-step empty-linear-form condition … explicitly substituted with a
zero right-hand side"; "failures outside this specific case propagate").
Substitution is permitted only at the terminal backward step `k = Nt`; a
`ValueError` at any `k < Nt` propagates, reported as `Except.error k`.
Returns the list of substituted steps on success. -/
def specAdjointSubstitution (Nt : ℕ) (v : ℕ → Bool) : ℕ → Except ℕ (List ℕ)
  | 0 => Except.ok []
  | k+1 =>
    if v (k+1) then
      if k+1 = Nt then (specAdjointSubstitution Nt v k).map (fun l => (k+1) :: l)
      else Except.error (k+1)
    else specAdjointSubstitution Nt v k

/-! ## Coefficient splines (src/splines.py and src/optipuls/splines.py)

Cubic4 polynomials are represented by their four global-basis coefficients, as
in both sources (`numpy.polynomial.Polynomial` coefficient arrays). -/

/-- A cubic polynomial `c0 + c1*x + c2*x^2 + c3*x^3`. -/
structure Cubic4 where
  c0 : ℚ
  c1 : ℚ
  c2 : ℚ
  c3 : ℚ
deriving DecidableEq

/-- Evaluation `Polynomial(coef)(x)`. -/
def Cubic4.eval (p : Cubic4) (x : ℚ) : ℚ :=
  p.c0 + p.c1*x + p.c2*x^2 + p.c3*x^3

/-- Derivative evaluation `Polynomial(coef).deriv()(x)`. -/
def Cubic4.derivAt (p : Cubic4) (x : ℚ) : ℚ :=
  p.c1 + 2*p.c2*x + 3*p.c3*x^2

/-- The all-zero cubic (a `np.zeros(4)` row). -/
def cubicZero : Cubic4 := ⟨0, 0, 0, 0⟩

/-- Coefficientwise sum. -/
def addC (p q : Cubic4) : Cubic4 :=
  ⟨p.c0 + q.c0, p.c1 + q.c1, p.c2 + q.c2, p.c3 + q.c3⟩

/-- Scalar multiple. -/
def smulC (a : ℚ) (p : Cubic4) : Cubic4 :=
  ⟨a * p.c0, a * p.c1, a * p.c2, a * p.c3⟩

/-- Hermite basis `h00 = [1, 0, -3, 2]` (named `p0` in src/splines.py). -/
def h00 : Cubic4 := ⟨1, 0, -3, 2⟩

/-- Hermite basis `h10 = [0, 1, -2, 1]` (named `m0` in src/splines.py). -/
def h10 : Cubic4 := ⟨0, 1, -2, 1⟩

/-- Hermite basis `h01 = [0, 0, 3, -2]` (named `p1` in src/splines.py). -/
def h01 : Cubic4 := ⟨0, 0, 3, -2⟩

/-- Hermite basis `h11 = [0, 0, -1, 1]` (named `m1` in src/splines.py). -/
def h11 : Cubic4 := ⟨0, 0, -1, 1⟩

/-- The window-basis combination `p0*h00 + p1*h01 + m0*h10 + m1*h11` shared
by both sources (in `gen_hermite_spline` the derivative weights enter
unscaled; in `hermine_interpolating_polynomial` they arrive pre-multiplied by
the interval length). -/
def hermiteCombo (p0v p1v m0v m1v : ℚ) : Cubic4 :=
  addC (addC (smulC p0v h00) (smulC p1v h01))
       (addC (smulC m0v h10) (smulC m1v h11))

/-- Substitution of the affine map `x ↦ u + v*x` into a cubic: the global
coefficients of `x ↦ p(u + v*x)`, exactly what
`Polynomial(coef, domain, window).convert()` computes. -/
def composeAffine (p : Cubic4) (u v : ℚ) : Cubic4 :=
  ⟨p.c0 + p.c1*u + p.c2*u^2 + p.c3*u^3,
   p.c1*v + 2*p.c2*u*v + 3*p.c3*u^2*v,
   p.c2*v^2 + 3*p.c3*u*v^2,
   p.c3*v^3⟩

/-- Conversion of a window-[0,1] cubic to the global basis on the interval
`[x0, x1]`: `Polynomial(coef, domain=[x0,x1], window=[0,1]).convert()`,
i.e. substitution of `t = (x - x0)/(x1 - x0)`. -/
def convertToDomain (p : Cubic4) (x0 x1 : ℚ) : Cubic4 :=
  composeAffine p (-x0/(x1 - x0)) (1/(x1 - x0))

/-- `hermine_interpolating_polynomial(knots, values, derivatives)`
(src/optipuls/splines.py lines 147-175): `coef_unscaled = h00*p0 + h01*p1 +
(h10*m0 + h11*m1)*(x1 - x0)`, then domain/window conversion. -/
def hermine_interpolating_polynomial (x0 x1 p0v p1v m0v m1v : ℚ) : Cubic4 :=
  convertToDomain (hermiteCombo p0v p1v (m0v*(x1 - x0)) (m1v*(x1 - x0))) x0 x1

/-- `np.gradient(values)` with the default unit spacing: one-sided
differences at the ends, central differences inside (defined for length ≥ 2,
as in every use in the source). -/
def npGradient (v : List ℚ) : List ℚ :=
  (List.range v.length).map (fun i =>
    if i = 0 then v.getD 1 0 - v.getD 0 0
    else if i = v.length - 1 then v.getD i 0 - v.getD (i-1) 0
    else (v.getD (i+1) 0 - v.getD (i-1) 0) / 2)

/-- Interior segment `i` of `gen_hermite_spline` (src/splines.py lines
34-47): window-basis combination with the raw `np.gradient` derivative
weights (no interval-length scaling), then domain/window conversion onto
`[knots[i], knots[i+1]]`. -/
def genSegment (knots values derivs : List ℚ) (i : ℕ) : Cubic4 :=
  convertToDomain
    (hermiteCombo (values.getD i 0) (values.getD (i+1) 0)
                  (derivs.getD i 0) (derivs.getD (i+1) 0))
    (knots.getD i 0) (knots.getD (i+1) 0)

/-- The string `'constant'`. -/
def strConstant : String := "constant"

/-- The string `'linear'`. -/
def strLinear : String := "linear"

/-- `gen_hermite_spline(knots, values, extrapolation)` (src/splines.py lines
16-56): `n-1` interior rows plus one extrapolation row.  For
`extrapolation='linear'` the source sets `spline[-1] = values[-1], k, 0, 0`
with `k = Polynomial(spline[-2]).deriv()(knots[-1])` — the coefficients are
in the global basis, so the extrapolation polynomial is
`x ↦ values[-1] + k*x`.  An unrecognised policy leaves the zero row. -/
def gen_hermite_spline (knots values : List ℚ) (extrapolation : String) :
    List Cubic4 :=
  let derivs := npGradient values
  let n := knots.length
  let interior := (List.range (n-1)).map (genSegment knots values derivs)
  let lastRow :=
    if extrapolation = strConstant then
      (⟨values.getD (n-1) 0, 0, 0, 0⟩ : Cubic4)
    else if extrapolation = strLinear then
      let k := (interior.getD (n-2) cubicZero).derivAt (knots.getD (n-1) 0)
      (⟨values.getD (n-1) 0, k, 0, 0⟩ : Cubic4)
    else cubicZero
  interior ++ [lastRow]

/-- The right linear-extrapolation row of `HermiteSpline.__init__`
(src/optipuls/splines.py lines 122-125): slope `k` is the adjacent segment's
derivative at the last knot, intercept `b = values[-1] - k*knots[-1]`, so the
row is the line through `(knots[-1], values[-1])` with slope `k`. -/
def rightLinearExtrap (segLast : Cubic4) (xLast vLast : ℚ) : Cubic4 :=
  let k := segLast.derivAt xLast
  ⟨vLast - k * xLast, k, 0, 0⟩

/-- The coefficient array built by `HermiteSpline.__init__`
(src/optipuls/splines.py lines 92-128): left extrapolation row, `n-1`
interior Hermite rows, right extrapolation row. -/
def hermiteSplineCoefArray (knots values derivatives : List ℚ)
    (eL eR : String) : List Cubic4 :=
  let n := knots.length
  let interior := (List.range (n-1)).map (fun i =>
    hermine_interpolating_polynomial (knots.getD i 0) (knots.getD (i+1) 0)
      (values.getD i 0) (values.getD (i+1) 0)
      (derivatives.getD i 0) (derivatives.getD (i+1) 0))
  let leftRow :=
    if eL = strConstant then (⟨values.getD 0 0, 0, 0, 0⟩ : Cubic4)
    else if eL = strLinear then
      let k := (interior.getD 0 cubicZero).derivAt (knots.getD 0 0)
      (⟨values.getD 0 0 - k * knots.getD 0 0, k, 0, 0⟩ : Cubic4)
    else cubicZero
  let rightRow :=
    if eR = strConstant then (⟨values.getD (n-1) 0, 0, 0, 0⟩ : Cubic4)
    else if eR = strLinear then
      rightLinearExtrap (interior.getD (n-2) cubicZero)
        (knots.getD (n-1) 0) (values.getD (n-1) 0)
    else cubicZero
  leftRow :: interior ++ [rightRow]

/-- The elementwise check `np.all(knots[:-1] <= knots[1:])` shared by
`Spline.__init__` and `HermiteSpline.__init__`: adjacent pairs non-strictly
sorted. -/
def adjSortedLe : List ℚ → Bool
  | [] => true
  | [_] => true
  | a :: b :: rest => decide (a ≤ b) && adjSortedLe (b :: rest)

/-- Whether an `Except` value is a success. -/
def exceptOk {ε β : Type} : Except ε β → Bool
  | Except.ok _ => true
  | Except.error _ => false

/-- The message `'knots are not sorted'`. -/
def msgNotSorted : String := "knots are not sorted"

/-- The message `'dimension inconsistency'`. -/
def msgDimension : String := "dimension inconsistency"

/-- The validation and construction of `HermiteSpline.__init__`
(src/optipuls/splines.py lines 92-128): raises `ValueError('knots are not
sorted')` when `np.all(knots[:-1] <= knots[1:])` fails, then
`ValueError('dimension inconsistency')` on either length mismatch, else
returns the spline data. -/
def hermiteSplineInit (knots values derivatives : List ℚ) (eL eR : String) :
    Except String (List ℚ × List Cubic4) :=
  if adjSortedLe knots = false then Except.error msgNotSorted
  else if knots.length ≠ values.length then Except.error msgDimension
  else if knots.length ≠ derivatives.length then Except.error msgDimension
  else Except.ok (knots, hermiteSplineCoefArray knots values derivatives eL eR)

/-- The validation of `Spline.__init__` (src/optipuls/splines.py lines
55-59): sortedness of `knots`, then `len(coef_array) == len(knots) + 1`. -/
def splineInitChecks (knots : List ℚ) (coef_array : List Cubic4) :
    Except String Unit :=
  if adjSortedLe knots = false then Except.error msgNotSorted
  else if coef_array.length ≠ knots.length + 1 then Except.error msgDimension
  else Except.ok ()

/-! ## Helper lemmas -/

/-- Clipped values are at least 0. -/
theorem clip1_nonneg (x : ℚ) : 0 ≤ clip1 x :=
  le_min (le_max_right x 0) zero_le_one

/-- Clipped values are at most 1. -/
theorem clip1_le_one (x : ℚ) : clip1 x ≤ 1 :=
  min_le_right _ _

/-- Every clipped list satisfies the box constraint. -/
theorem boxList_clip01 (c : List ℚ) : boxList (clip01 c) := by
  intro x hx
  rcases List.mem_map.mp hx with ⟨y, _, rfl⟩
  exact ⟨clip1_nonneg y, clip1_le_one y⟩

/-- Every line-search proposal satisfies the box constraint. -/
theorem boxList_propose (control D : List ℚ) (s : ℚ) :
    boxList (proposeControl control D s) :=
  boxList_clip01 _

/-- Exit properties of the inner line-search loop: whenever the loop exits,
the returned control is the last proposal, its stored cost is its oracle
cost, that cost is strictly below the incumbent cost, and the control
satisfies the box constraint. -/
theorem lineSearchAux_exit (costOf : List ℚ → ℚ) (control D : List ℚ)
    (cost : ℚ) :
    ∀ (fuel : ℕ) (s cost_next : ℚ) (first_try : Bool)
      (control_next trace : List ℚ) (r : LSResult),
    (first_try = true ∨
      (cost_next = costOf control_next ∧ boxList control_next)) →
    lineSearchAux costOf control D cost fuel s cost_next first_try
      control_next trace = some r →
    r.cost_next = costOf r.control_next ∧ r.cost_next < cost ∧
      boxList r.control_next := by
  intro fuel
  induction fuel with
  | zero =>
    intro s cn ft c t r _ h
    simp [lineSearchAux] at h
  | succ n ih =>
    intro s cost_next first_try control_next trace r hinv h
    rw [lineSearchAux] at h
    by_cases hc : cost ≤ cost_next ∨ first_try = true
    · rw [if_pos hc] at h
      exact ih _ _ false _ _ r (Or.inr ⟨rfl, boxList_propose control D s⟩) h
    · rw [if_neg hc] at h
      push_neg at hc
      obtain ⟨hlt, hft⟩ := hc
      cases h
      rcases hinv with h1 | ⟨h2, h3⟩
      · exact absurd h1 hft
      · exact ⟨h2, hlt, h3⟩

/-- Length of the geometric halving list. -/
theorem geomHalving_length (s : ℚ) (n : ℕ) : (geomHalving s n).length = n := by
  induction n with
  | zero => rfl
  | succ m ih => simp [geomHalving, ih]

/-- Length of the actual proposal-step-size list. -/
theorem actualTrace_length (s : ℚ) (n : ℕ) : (actualTrace s n).length = n := by
  cases n with
  | zero => rfl
  | succ m => simp [actualTrace, geomHalving_length]

/-- Appending the next taken step size extends the actual trace. -/
theorem actualTrace_concat (s0 : ℚ) (n : ℕ) (h : 1 ≤ n) :
    actualTrace s0 (n+1) = actualTrace s0 n ++ [s0 / 2^(n-1)] := by
  cases n with
  | zero => exact absurd h (by decide)
  | succ m => simp [actualTrace, geomHalving]

/-- Trace invariant of the inner line-search loop: if the loop exits, the
recorded proposal step sizes are exactly `actualTrace s0 n` for `n ≥ 1`
proposals, where `s0` is the step size the loop was entered with. -/
theorem lineSearchAux_trace (costOf : List ℚ → ℚ) (control D : List ℚ)
    (cost : ℚ) :
    ∀ (fuel : ℕ) (s0 : ℚ) (n : ℕ) (s cost_next : ℚ) (first_try : Bool)
      (control_next trace : List ℚ) (r : LSResult),
    ((first_try = true ∧ trace = [] ∧ s = s0 ∧ n = 0) ∨
     (first_try = false ∧ trace = actualTrace s0 n ∧ s = s0 / 2^(n-1) ∧
       1 ≤ n)) →
    lineSearchAux costOf control D cost fuel s cost_next first_try
      control_next trace = some r →
    r.trace = actualTrace s0 r.trace.length ∧ 1 ≤ r.trace.length := by
  intro fuel
  induction fuel with
  | zero =>
    intro s0 n s cn ft c t r _ h
    simp [lineSearchAux] at h
  | succ m ih =>
    intro s0 n s cost_next first_try control_next trace r hinv h
    rw [lineSearchAux] at h
    by_cases hc : cost ≤ cost_next ∨ first_try = true
    · rw [if_pos hc] at h
      rcases hinv with ⟨hft, htr, hs, -⟩ | ⟨hft, htr, hs, hn⟩
      · subst hft; subst htr
        rw [hs] at h
        simp only [List.nil_append, if_true] at h
        refine ih s0 1 _ _ false _ _ r (Or.inr ?_) h
        exact ⟨rfl, by simp [actualTrace, geomHalving], by simp, le_refl 1⟩
      · subst hft
        rw [htr, hs] at h
        simp only [Bool.false_eq_true, if_false] at h
        refine ih s0 (n+1) _ _ false _ _ r (Or.inr ?_) h
        have hp : (2:ℚ)^(n-1) * 2 = 2^n := by
          rw [← pow_succ]
          congr 1
          omega
        refine ⟨rfl, ?_, ?_, by omega⟩
        · rw [actualTrace_concat s0 n hn]
        · rw [Nat.add_sub_cancel, div_div, hp]
    · rw [if_neg hc] at h
      push_neg at hc
      obtain ⟨hlt, hft⟩ := hc
      cases h
      rcases hinv with ⟨h1, _⟩ | ⟨_, htr, _, hn⟩
      · exact absurd h1 hft
      · constructor
        · simp only [htr, actualTrace_length]
        · simp only [htr, actualTrace_length]
          exact hn

/-- If no clipped proposal at any step size attains a cost strictly below
the incumbent cost, the inner loop never exits: for every amount of fuel the
run is still in the loop. -/
theorem lineSearchAux_stuck (costOf : List ℚ → ℚ) (control D : List ℚ)
    (cost : ℚ)
    (hbad : ∀ s', cost ≤ costOf (proposeControl control D s')) :
    ∀ (fuel : ℕ) (s cost_next : ℚ) (first_try : Bool)
      (control_next trace : List ℚ),
    (cost ≤ cost_next ∨ first_try = true) →
    lineSearchAux costOf control D cost fuel s cost_next first_try
      control_next trace = none := by
  intro fuel
  induction fuel with
  | zero =>
    intro s cn ft c t _
    rfl
  | succ m ih =>
    intro s cost_next first_try control_next trace hcond
    rw [lineSearchAux, if_pos hcond]
    exact ih _ _ false _ _ (Or.inl (hbad s))

/-- Main invariant of the outer descent loop: a normally returned record list
extends the incoming one, keeps its head, is strictly decreasing in oracle
cost, and every record beyond the first satisfies the box constraint. -/
theorem gradientDescentAux_inv (costOf : List ℚ → ℚ)
    (gradOf : List ℚ → List ℚ) (lsFuel : ℕ) :
    ∀ (iters : ℕ) (control : List ℚ) (cost s : ℚ)
      (records out : List (List ℚ)),
    gradientDescentAux costOf gradOf lsFuel iters control cost s records =
      some out →
    cost = costOf control →
    records.getLast? = some control →
    List.Chain' (fun a b => costOf b < costOf a) records →
    (∀ r ∈ records.drop 1, boxList r) →
    out.head? = records.head? ∧
      List.Chain' (fun a b => costOf b < costOf a) out ∧
      ∀ r ∈ out.drop 1, boxList r := by
  intro iters
  induction iters with
  | zero =>
    intro control cost s records out h _ _ hch hbox
    rw [gradientDescentAux] at h
    cases h
    exact ⟨rfl, hch, hbox⟩
  | succ i ih =>
    intro control cost s records out h hcost hlast hch hbox
    rw [gradientDescentAux] at h
    by_cases hnorm : dt * ((gradOf control).map (fun x => x^2)).sum < tolerance
    · rw [if_pos hnorm] at h
      cases h
      exact ⟨rfl, hch, hbox⟩
    · rw [if_neg hnorm] at h
      cases hls : lineSearch costOf control (gradOf control) cost lsFuel s with
      | none =>
        rw [hls] at h
        cases h
      | some r =>
        rw [hls] at h
        obtain ⟨hre, hrlt, hrbox⟩ :=
          lineSearchAux_exit costOf control (gradOf control) cost lsFuel s
            cost true control [] r (Or.inl rfl) hls
        have hnonnil : records ≠ [] := by
          intro hn
          rw [hn, List.getLast?_nil] at hlast
          exact Option.noConfusion hlast
        obtain ⟨a, t, rfl⟩ := List.exists_cons_of_ne_nil hnonnil
        have hstep : costOf r.control_next < costOf control := by
          rw [← hre, ← hcost]
          exact hrlt
        have hch' : List.Chain' (fun a b => costOf b < costOf a)
            ((a :: t) ++ [r.control_next]) := by
          rw [List.chain'_append]
          refine ⟨hch, List.chain'_singleton _, ?_⟩
          intro x hx y hy
          rw [hlast] at hx
          rw [Option.mem_def, Option.some_inj] at hx
          simp only [List.head?_cons, Option.mem_def, Option.some_inj] at hy
          subst hx
          subst hy
          exact hstep
        have hbox' : ∀ q ∈ ((a :: t) ++ [r.control_next]).drop 1, boxList q := by
          intro q hq
          simp only [List.cons_append, List.drop_succ_cons, List.drop_zero,
            List.mem_append, List.mem_singleton] at hq
          rcases hq with hq | rfl
          · exact hbox q (by simpa using hq)
          · exact hrbox
        obtain ⟨hh, hc2, hb2⟩ := ih r.control_next r.cost_next (r.sAfter * 2)
          ((a :: t) ++ [r.control_next]) out h hre
          (List.getLast?_concat _) hch' hbox'
        refine ⟨?_, hc2, hb2⟩
        rw [hh]
        simp

/-- The substitution trace accumulated by a backward sweep from `k`: the
substitution fires at exactly the steps where the assembly raises, whatever
the step index. -/
theorem adjRun_subs {α : Type}
    (asolve : α → α → ℚ → Option (α × α × ℚ) → Bool → ℚ → α)
    (ptEval : α → ℚ) (ev : ℕ → α) (ctrl : ℕ → ℚ) (Nt : ℕ) (M : ℚ)
    (rhsVoid : ℕ → Bool) (enable : Bool) :
    ∀ (k : ℕ) (st : AdjState α),
    (adjRun asolve ptEval ev ctrl Nt M rhsVoid enable k st).subs =
      st.subs ++ downFilter rhsVoid k := by
  intro k
  induction k with
  | zero =>
    intro st
    simp [adjRun, downFilter]
  | succ m ih =>
    intro st
    rw [adjRun, ih, downFilter]
    simp [adjStep, List.append_assoc]

/-- The commented-out assignment `theta_next_.vector().set_local(
evolution[k+1])` makes no difference to a sweep whose state satisfies the
`theta_next` invariants. -/
theorem adjRun_enable_irrelevant {α : Type}
    (asolve : α → α → ℚ → Option (α × α × ℚ) → Bool → ℚ → α)
    (ptEval : α → ℚ) (ev : ℕ → α) (ctrl : ℕ → ℚ) (Nt : ℕ) (M : ℚ)
    (rhsVoid : ℕ → Bool) :
    ∀ (k : ℕ) (st : AdjState α), k ≤ Nt →
    st.theta_next = ev k → (k < Nt → st.theta_next_ = ev (k+1)) →
    adjRun asolve ptEval ev ctrl Nt M rhsVoid true k st =
      adjRun asolve ptEval ev ctrl Nt M rhsVoid false k st := by
  intro k
  induction k with
  | zero =>
    intro st _ _ _
    rfl
  | succ m ih =>
    intro st hle htn htn_
    rw [adjRun, adjRun]
    have hstep : adjStep asolve ptEval ev ctrl Nt M rhsVoid true (m+1) st =
        adjStep asolve ptEval ev ctrl Nt M rhsVoid false (m+1) st := by
      unfold adjStep
      by_cases hlt : m+1 < Nt
      · rw [htn_ hlt]
        simp [hlt]
      · simp [hlt]
    rw [hstep]
    apply ih
    · omega
    · simp [adjStep]
    · intro _
      simp [adjStep, htn]

/-- Loop invariant of the backward sweep, stated on the state at entry of
iteration `Nt - d`: `theta_next` holds `evolution[Nt - d]`, and from the
second iteration on (`d ≥ 1`, i.e. iteration index `< Nt`), `theta_next_`
holds `evolution[Nt - d + 1]`. -/
theorem adjEntry_inv {α : Type}
    (asolve : α → α → ℚ → Option (α × α × ℚ) → Bool → ℚ → α)
    (ptEval : α → ℚ) (ev : ℕ → α) (ctrl : ℕ → ℚ) (Nt : ℕ) (M : ℚ)
    (rhsVoid : ℕ → Bool) (enable : Bool) (z : α) :
    ∀ d : ℕ, d < Nt →
    (adjEntry asolve ptEval ev ctrl Nt M rhsVoid enable z d).theta_next =
        ev (Nt - d) ∧
      (1 ≤ d →
        (adjEntry asolve ptEval ev ctrl Nt M rhsVoid enable z d).theta_next_ =
          ev (Nt - d + 1)) := by
  intro d
  induction d with
  | zero =>
    intro _
    refine ⟨by simp [adjEntry], ?_⟩
    intro h
    exact absurd h (by omega)
  | succ m ih =>
    intro hlt
    have hm : m < Nt := by omega
    obtain ⟨h1, -⟩ := ih hm
    constructor
    · rw [adjEntry]
      simp only [adjStep]
      congr 1
    · intro _
      rw [adjEntry]
      simp only [adjStep, h1]
      congr 1
      omega

/-- After `d` bodies, the full sweep continues from the entry state of
iteration `Nt - d`: `adjEntry` really is the state the loop reaches. -/
theorem adjRun_decompose {α : Type}
    (asolve : α → α → ℚ → Option (α × α × ℚ) → Bool → ℚ → α)
    (ptEval : α → ℚ) (ev : ℕ → α) (ctrl : ℕ → ℚ) (Nt : ℕ) (M : ℚ)
    (rhsVoid : ℕ → Bool) (enable : Bool) (z : α) :
    ∀ d : ℕ, d ≤ Nt →
    adjRun asolve ptEval ev ctrl Nt M rhsVoid enable Nt ⟨ev Nt, z, z, [], []⟩ =
      adjRun asolve ptEval ev ctrl Nt M rhsVoid enable (Nt - d)
        (adjEntry asolve ptEval ev ctrl Nt M rhsVoid enable z d) := by
  intro d
  induction d with
  | zero =>
    intro _
    rw [Nat.sub_zero, adjEntry]
  | succ m ih =>
    intro hle
    have hm : m ≤ Nt := by omega
    have hsub : Nt - m = (Nt - (m+1)) + 1 := by omega
    rw [ih hm, hsub, adjRun, ← hsub]
    rfl

/-- The multiplier identity behind the amended C4: with `norm` the positive
`pow_`-th root of `sum_`, the factor `norm/sum_` is the reciprocal power
`norm^(1-pow_)`. -/
theorem M_adjoint_reciprocal (sum_ norm : ℚ) (h0 : 0 < norm)
    (hdef : norm^pow_ = sum_) :
    M_adjoint sum_ norm = beta_w * (norm - threshold_temp) / norm^(pow_-1) := by
  subst hdef
  have hne : norm ≠ 0 := ne_of_gt h0
  simp only [M_adjoint, pow_]
  norm_num
  field_simp
  ring

/-- Substituting the affine map into a cubic commutes with evaluation. -/
theorem composeAffine_eval (p : Cubic4) (u v x : ℚ) :
    (composeAffine p u v).eval x = p.eval (u + v*x) := by
  simp only [composeAffine, Cubic4.eval]
  ring

/-- The window-basis Hermite combination takes the right-hand value at the
right end of the window. -/
theorem hermiteCombo_eval_one (p0v p1v m0v m1v : ℚ) :
    (hermiteCombo p0v p1v m0v m1v).eval 1 = p1v := by
  simp only [hermiteCombo, addC, smulC, h00, h01, h10, h11, Cubic4.eval]
  ring

/-- The interior Hermite segment interpolates the right-hand value at the
right knot (for a genuine interval). -/
theorem herminePoly_eval_right (x0 x1 p0v p1v m0v m1v : ℚ) (h : x0 ≠ x1) :
    (hermine_interpolating_polynomial x0 x1 p0v p1v m0v m1v).eval x1 = p1v := by
  unfold hermine_interpolating_polynomial convertToDomain
  rw [composeAffine_eval]
  have hx : -x0/(x1-x0) + 1/(x1-x0)*x1 = 1 := by
    have : x1 - x0 ≠ 0 := sub_ne_zero.mpr (Ne.symm h)
    field_simp
    ring
  rw [hx, hermiteCombo_eval_one]

/-- A row-read loop fails as soon as any index it visits is out of range. -/
theorem rowsRange_none (ev : List (List ℚ)) (m : ℕ) (hm : ev.get? m = none) :
    ∀ n, m < n → rowsRange ev n = none := by
  intro n
  induction n with
  | zero =>
    intro h
    omega
  | succ k ih =>
    intro h
    rw [rowsRange]
    by_cases hk : m < k
    · rw [ih hk]
    · have hkm : k = m := by omega
      subst hkm
      rw [hm]
      cases rowsRange ev k <;> rfl

/-! ## Claim theorems -/

/-- Claim C1 (code bug): the spec's example scenario — a flat-zero control of
length `Nt = 4` through `solve_forward`, `solve_adjoint`, then `Dj`, and
`gradient_descent` with one iteration — cannot produce a length-4 gradient or
any iteration records, because `Dj` and `J_welding` iterate over the
module-global `Nt = 30` and index the 5-row trajectories out of range
(`IndexError`, modelled by `none`), whatever the external assembly and
point-evaluation collaborators and the value of `laser_pd`. -/
theorem C1_length_four_scenario_crashes :
    ∀ (f g : List ℚ → ℚ) (lpd : ℚ),
    Dj f lpd (List.replicate 5 (List.replicate 2 0)) (List.replicate 4 0) =
      none ∧
    J_weldingPointSum g (List.replicate 5 (List.replicate 2 0)) = none := by
  intro f g lpd
  have h : rowsRange (List.replicate 5 (List.replicate 2 (0:ℚ))) NtGlobal =
      none :=
    rowsRange_none _ 5 (by decide) NtGlobal (by decide)
  have h2 : rowsRange ((List.replicate 5 (List.replicate 2 (0:ℚ))).drop 1)
      NtGlobal = none :=
    rowsRange_none _ 4 (by decide) NtGlobal (by decide)
  constructor
  · simp only [Dj, h, Option.map_none']
  · simp only [J_weldingPointSum, h2, Option.map_none']

/-- Claim C2 counterexample: entering the line search at `s = 1/4` against an
oracle on which the first two proposals fail and the third succeeds, the
proposals are taken at step sizes `[1/4, 1/4, 1/8]` — the second proposal
repeats `s` — and not at the claimed geometric sequence
`[s, s/2, s/4] = [1/4, 1/8, 1/16]`. -/
theorem C2_counterexample :
    lineSearch (fun c => if c = [(1:ℚ)/8] then -1 else 0) [0] [-1] 0 5 (1/4) =
      some ⟨[1/8], -1, 1/16, [1/4, 1/4, 1/8]⟩ ∧
    [(1:ℚ)/4, 1/4, 1/8] ≠ geomHalving (1/4) 3 := by
  constructor
  · norm_num [lineSearch, lineSearchAux, proposeControl, clip01, clip1]
  · norm_num [geomHalving]

/-- Claim C2 (amended): whenever the inner line search of `gradient_descent`
exits, the proposals of that outer iteration were taken at step sizes
`s, s, s/2, s/4, ...` (the first failed proposal does not halve `s`; halving
happens only after the second and later proposals), and the first proposal at
the current `s` is always attempted at least once. -/
theorem C2_line_search_step_sizes (costOf : List ℚ → ℚ) (control D : List ℚ)
    (cost : ℚ) (fuel : ℕ) (s : ℚ) (r : LSResult)
    (h : lineSearch costOf control D cost fuel s = some r) :
    r.trace = actualTrace s r.trace.length ∧ 1 ≤ r.trace.length :=
  lineSearchAux_trace costOf control D cost fuel s 0 s cost true control [] r
    (Or.inl ⟨rfl, rfl, rfl, rfl⟩) h

/-- Witness for C2: a concrete exiting run whose recorded step sizes are
`actualTrace (1/4) 3 = [1/4, 1/4, 1/8]`. -/
theorem C2_witness :
    [(1:ℚ)/4, 1/4, 1/8] =
      actualTrace (1/4) [(1:ℚ)/4, 1/4, 1/8].length ∧
    1 ≤ [(1:ℚ)/4, 1/4, 1/8].length := by
  have h : lineSearch (fun c => if c = [(1:ℚ)/8] then -1 else 0) [0] [-1] 0 5
      (1/4) = some ⟨[1/8], -1, 1/16, [1/4, 1/4, 1/8]⟩ := by
    norm_num [lineSearch, lineSearchAux, proposeControl, clip01, clip1]
  exact C2_line_search_step_sizes _ _ _ _ _ _ _ h

/-- Claim C3 counterexample: `gradient_descent` appends the caller's initial
control unclipped, so for the initial control `[2]` (and an iteration budget
of 0) the returned record list is `[[2]]`, which violates the entrywise
`[0, 1]` box the claim asserts of every returned trajectory. -/
theorem C3_counterexample :
    gradient_descent (fun _ => 0) (fun _ => []) [2] 1 0 512 = some [[2]] ∧
    ¬ (∀ q ∈ [[(2:ℚ)]], ∀ x ∈ q, 0 ≤ x ∧ x ≤ 1) := by
  exact ⟨rfl, by decide⟩

/-- Claim C3 (amended): every control trajectory the driver proposes through
clipping lies entrywise in `[0, 1]`; consequently in a normally returned
record list every record after the first lies entrywise in `[0, 1]`, while
the first record is the caller's initial control, returned unmodified. -/
theorem C3_box_amended (costOf : List ℚ → ℚ) (gradOf : List ℚ → List ℚ)
    (control : List ℚ) (lsFuel iter_max : ℕ) (s : ℚ) (out : List (List ℚ))
    (h : gradient_descent costOf gradOf control lsFuel iter_max s = some out) :
    (∀ (c D : List ℚ) (s' : ℚ), boxList (proposeControl c D s')) ∧
    out.head? = some control ∧
    ∀ q ∈ out.drop 1, boxList q := by
  obtain ⟨hh, -, hb⟩ := gradientDescentAux_inv costOf gradOf lsFuel iter_max
    control (costOf control) s [control] out h rfl rfl
    (List.chain'_singleton _) (by intro q hq; simp at hq)
  exact ⟨fun c D s' => boxList_propose c D s', by rw [hh]; rfl, hb⟩

/-- Witness for C3: a concrete accepted run from the in-box control `[0]`,
whose returned records keep the initial head and are in-box past it. -/
theorem C3_witness :
    [[(0:ℚ)], [1]].head? = some [(0:ℚ)] ∧
    ∀ q ∈ [[(0:ℚ)], [1]].drop 1, boxList q := by
  have h : gradient_descent (fun c => -c.sum) (fun _ => [-1]) [0] 3 1 512 =
      some [[0], [1]] := by
    norm_num [gradient_descent, gradientDescentAux, lineSearch, lineSearchAux,
      proposeControl, clip01, clip1, dt, T, NtGlobal, tolerance]
  obtain ⟨-, h2, h3⟩ := C3_box_amended _ _ _ _ _ _ _ h
  exact ⟨h2, h3⟩

/-- Claim C8 (confirmed): in any record list returned normally by
`gradient_descent`, every record after the first has oracle cost strictly
smaller than the preceding record's cost: each accepted step strictly
decreases the cost functional. -/
theorem C8_descent_monotonicity (costOf : List ℚ → ℚ)
    (gradOf : List ℚ → List ℚ) (control : List ℚ) (lsFuel iter_max : ℕ)
    (s : ℚ) (out : List (List ℚ))
    (h : gradient_descent costOf gradOf control lsFuel iter_max s = some out) :
    List.Chain' (fun a b => costOf b < costOf a) out :=
  (gradientDescentAux_inv costOf gradOf lsFuel iter_max control
    (costOf control) s [control] out h rfl rfl (List.chain'_singleton _)
    (by intro q hq; simp at hq)).2.1

/-- Witness for C8: a concrete two-record run with strictly decreasing
costs. -/
theorem C8_witness :
    List.Chain'
      (fun a b => (fun c : List ℚ => -c.sum) b < (fun c : List ℚ => -c.sum) a)
      [[(0:ℚ)], [1]] := by
  have h : gradient_descent (fun c => -c.sum) (fun _ => [-1]) [0] 3 1 512 =
      some [[0], [1]] := by
    norm_num [gradient_descent, gradientDescentAux, lineSearch, lineSearchAux,
      proposeControl, clip01, clip1, dt, T, NtGlobal, tolerance]
  exact C8_descent_monotonicity _ _ _ _ _ _ _ h

/-- Claim C10 (confirmed): the inner line-search loop exits only with a
proposal of cost strictly below the incumbent cost; and on any input where
every clipped proposal has cost at least the incumbent cost while the
gradient-norm tolerance is not met, the loop runs forever (it is still
running after any amount of fuel) and `gradient_descent` never returns. -/
theorem C10_line_search_nontermination (costOf : List ℚ → ℚ)
    (gradOf : List ℚ → List ℚ) (control : List ℚ) (s : ℚ) :
    (∀ (cost : ℚ) (fuel : ℕ) (r : LSResult),
      lineSearch costOf control (gradOf control) cost fuel s = some r →
      r.cost_next < cost) ∧
    ((∀ s', costOf control ≤
        costOf (proposeControl control (gradOf control) s')) →
     ¬ (dt * ((gradOf control).map (fun x => x^2)).sum < tolerance) →
     (∀ fuel : ℕ,
        lineSearch costOf control (gradOf control) (costOf control) fuel s =
          none) ∧
     (∀ lsFuel iters : ℕ,
        gradient_descent costOf gradOf control lsFuel (iters+1) s = none)) := by
  constructor
  · intro cost fuel r h
    exact (lineSearchAux_exit costOf control (gradOf control) cost fuel s cost
      true control [] r (Or.inl rfl) h).2.1
  · intro hbad hnorm
    constructor
    · intro fuel
      exact lineSearchAux_stuck costOf control (gradOf control)
        (costOf control) hbad fuel s (costOf control) true control []
        (Or.inr rfl)
    · intro lsFuel iters
      unfold gradient_descent
      rw [gradientDescentAux, if_neg hnorm]
      have hnone : lineSearch costOf control (gradOf control) (costOf control)
          lsFuel s = none :=
        lineSearchAux_stuck costOf control (gradOf control) (costOf control)
          hbad lsFuel s (costOf control) true control [] (Or.inr rfl)
      rw [hnone]

/-- Witness for C10: with the constant-zero cost oracle and gradient `[1]`
from the control `[0]` pinned at the box bound, the line search is still
running after 4 bodies and `gradient_descent` returns nothing. -/
theorem C10_witness :
    lineSearch (fun _ => (0:ℚ)) [0] [1] 0 4 512 = none ∧
    gradient_descent (fun _ => (0:ℚ)) (fun _ => [1]) [0] 3 2 512 = none := by
  obtain ⟨-, h2⟩ := C10_line_search_nontermination (fun _ => (0:ℚ))
    (fun _ => [1]) [0] 512
  obtain ⟨ha, hb⟩ := h2 (fun s' => le_refl 0)
    (by norm_num [dt, T, NtGlobal, tolerance])
  exact ⟨ha 4, hb 3 1⟩

/-- Claim C4 counterexample: at the state with a single point value 2 the sum
is `2^pow_ = 64` and the norm is 2, and the source's multiplier
`beta_w*(norm - threshold_temp)*sum^(1/pow_ - 1) = M_adjoint 64 2 = -275/8`
differs from the claimed `beta_w*(norm - threshold_temp)*norm^(pow_-1) =
M_specClaim 64 2 = -35200`. -/
theorem C4_counterexample :
    pointEvalSum (fun _ => 2) 1 = 64 ∧ (2:ℚ)^pow_ = 64 ∧ (0:ℚ) < 2 ∧
    M_adjoint 64 2 ≠ M_specClaim 64 2 := by
  refine ⟨?_, ?_, by norm_num, ?_⟩
  · norm_num [pointEvalSum, pow_]
  · norm_num [pow_]
  · norm_num [M_adjoint, M_specClaim, beta_w, threshold_temp, pow_]

/-- Claim C4 (amended): the precomputed multiplier `M` of `solve_adjoint`
equals `beta_w * (norm - threshold_temp) * sum_^(1/pow_ - 1)`, i.e.
`beta_w * (norm - threshold_temp)` divided by `norm^(pow_-1)` — the
reciprocal power of the norm, not `norm^(pow_-1)`. -/
theorem C4_multiplier_reciprocal_power (sum_ norm : ℚ) (h0 : 0 < norm)
    (hdef : norm^pow_ = sum_) :
    M_adjoint sum_ norm = beta_w * (norm - threshold_temp) / norm^(pow_-1) :=
  M_adjoint_reciprocal sum_ norm h0 hdef

/-- Witness for C4: the amended identity at `norm = 2`, `sum_ = 64`. -/
theorem C4_witness :
    M_adjoint 64 2 = beta_w * ((2:ℚ) - threshold_temp) / 2^(pow_-1) :=
  C4_multiplier_reciprocal_power 64 2 (by norm_num) (by norm_num [pow_])

/-- Claim C5 counterexample: with an assembly failure injected at the
interior backward step `k = 2` of a sweep with `Nt = 4`, the source's
`try/except` silently substitutes the zero right-hand side there and the
sweep completes (substitution trace `[2]`), whereas the claim's
error-handling — substitution only at `k = Nt`, propagation below — would
abort with the error at step 2. -/
theorem C5_counterexample :
    (solve_adjointModel (fun _ _ _ _ _ _ => (0:ℚ)) (fun _ => 0) (fun _ => 0)
        (fun _ => 0) 4 0 (fun k => decide (k = 2)) false 0).2 = [2] ∧
    specAdjointSubstitution 4 (fun k => decide (k = 2)) 4 =
      Except.error 2 := by
  constructor
  · norm_num [solve_adjointModel, adjRun, adjStep]
  · norm_num [specAdjointSubstitution]

/-- Claim C5 (amended): the `try/except` wraps the assembly of every backward
step, so the zero-right-hand-side substitution is applied at exactly the
steps whose assembly raises `ValueError` — any step `k`, not only the
terminal `k = Nt` — and no assembly failure ever propagates to the caller
(the sweep is total). -/
theorem C5_substitution_every_failing_step {α : Type}
    (asolve : α → α → ℚ → Option (α × α × ℚ) → Bool → ℚ → α)
    (ptEval : α → ℚ) (ev : ℕ → α) (ctrl : ℕ → ℚ) (Nt : ℕ) (M : ℚ)
    (rhsVoid : ℕ → Bool) (enable : Bool) (z : α) :
    (solve_adjointModel asolve ptEval ev ctrl Nt M rhsVoid enable z).2 =
      downFilter rhsVoid Nt := by
  simp only [solve_adjointModel]
  rw [adjRun_subs]
  simp

/-- Witness for C5: the amended substitution-trace identity at a concrete
sweep with a failure injected at step 3 of 4. -/
theorem C5_witness :
    (solve_adjointModel (fun _ _ _ _ _ _ => (0:ℚ)) (fun _ => 0) (fun _ => 0)
        (fun _ => 0) 4 0 (fun k => decide (k = 3)) false 0).2 =
      downFilter (fun k => decide (k = 3)) 4 :=
  C5_substitution_every_failing_step _ _ _ _ 4 0 _ false 0

/-- Claim C6 counterexample: constructing a spline with two equal adjacent
knots does not fail — the sortedness check `np.all(knots[:-1] <= knots[1:])`
is non-strict, so `HermiteSpline([0,0], [1,2], [0,0])` and
`Spline([0,0], coef_array)` are both accepted. -/
theorem C6_counterexample :
    exceptOk (hermiteSplineInit [0, 0] [1, 2] [0, 0] strConstant strConstant)
      = true ∧
    exceptOk (splineInitChecks [0, 0] [cubicZero, cubicZero, cubicZero])
      = true := by
  constructor
  · norm_num [hermiteSplineInit, adjSortedLe, exceptOk]
  · norm_num [splineInitChecks, adjSortedLe, exceptOk]

/-- Claim C6 (amended): construction raises exactly when the knots are not
non-decreasingly sorted (some adjacent pair strictly decreasing) or, for
`HermiteSpline`, when `len(knots) ≠ len(values)` or `len(knots) ≠
len(derivatives)` (for `Spline`, when `len(coef_array) ≠ len(knots) + 1`);
equal adjacent knots pass the non-strict sortedness check. -/
theorem C6_validation (knots values derivatives : List ℚ)
    (coef_array : List Cubic4) (eL eR : String) :
    (exceptOk (hermiteSplineInit knots values derivatives eL eR) = false ↔
      (adjSortedLe knots = false ∨ knots.length ≠ values.length ∨
        knots.length ≠ derivatives.length)) ∧
    (exceptOk (splineInitChecks knots coef_array) = false ↔
      (adjSortedLe knots = false ∨ coef_array.length ≠ knots.length + 1)) := by
  constructor
  · unfold hermiteSplineInit
    split_ifs with h1 h2 h3 <;> simp_all [exceptOk]
  · unfold splineInitChecks
    split_ifs with h1 h2 <;> simp_all [exceptOk]

/-- Witness for C6: strictly decreasing knots are rejected, and a length
mismatch is rejected. -/
theorem C6_witness :
    exceptOk (hermiteSplineInit [1, 0] [0, 0] [0, 0] strConstant strConstant)
      = false ∧
    exceptOk (hermiteSplineInit [0, 1] [0] [0, 0] strConstant strConstant)
      = false := by
  constructor
  · exact (C6_validation [1, 0] [0, 0] [0, 0] [] strConstant strConstant).1.mpr
      (Or.inl (by norm_num [adjSortedLe]))
  · exact (C6_validation [0, 1] [0] [0, 0] [] strConstant strConstant).1.mpr
      (Or.inr (Or.inl (by norm_num)))

/-- Claim C7 (code bug): for `HermiteSpline` the right linear-extrapolation
row is the line through `(knots[-1], values[-1])` with the adjacent
segment's slope there — value-continuous with matching derivative — but
`gen_hermite_spline` stores `(values[-1], k, 0, 0)` in the global basis,
i.e. the line `x ↦ values[-1] + k*x`, whose value at the last knot is not
`values[-1]`: on knots `[0,1]`, values `[0,1]` it evaluates to 2 ≠ 1 at the
last knot, a jump discontinuity. -/
theorem C7_linear_extrapolation (x0 x1 p0v p1v m0v m1v : ℚ) (h : x0 ≠ x1) :
    (((gen_hermite_spline [0, 1] [0, 1] strLinear).getD 1 cubicZero).eval 1
        = 2 ∧
      ((gen_hermite_spline [0, 1] [0, 1] strLinear).getD 0 cubicZero).eval 1
        = 1 ∧
      (2:ℚ) ≠ 1) ∧
    ((rightLinearExtrap (hermine_interpolating_polynomial x0 x1 p0v p1v m0v
        m1v) x1 p1v).eval x1 = p1v ∧
     (hermine_interpolating_polynomial x0 x1 p0v p1v m0v m1v).eval x1 = p1v ∧
     (rightLinearExtrap (hermine_interpolating_polynomial x0 x1 p0v p1v m0v
        m1v) x1 p1v).derivAt x1 =
       (hermine_interpolating_polynomial x0 x1 p0v p1v m0v m1v).derivAt x1) := by
  refine ⟨⟨?_, ?_, by norm_num⟩, ?_, ?_, ?_⟩
  · norm_num +decide [gen_hermite_spline, npGradient, genSegment,
      convertToDomain, composeAffine, hermiteCombo, addC, smulC, h00, h01,
      h10, h11, cubicZero, strLinear, strConstant, Cubic4.eval,
      Cubic4.derivAt]
  · norm_num +decide [gen_hermite_spline, npGradient, genSegment,
      convertToDomain, composeAffine, hermiteCombo, addC, smulC, h00, h01,
      h10, h11, cubicZero, strLinear, strConstant, Cubic4.eval,
      Cubic4.derivAt, List.range_succ, List.range_zero]
  · simp only [rightLinearExtrap, Cubic4.eval, Cubic4.derivAt]
    ring
  · exact herminePoly_eval_right x0 x1 p0v p1v m0v m1v h
  · simp only [rightLinearExtrap, Cubic4.eval, Cubic4.derivAt]
    ring

/-- Witness for C7: the `HermiteSpline` side at the concrete data
`knots = [0,1]`, `values = [0,1]`, `derivatives = [1,1]`. -/
theorem C7_witness :
    (rightLinearExtrap (hermine_interpolating_polynomial 0 1 0 1 1 1) 1
      1).eval 1 = 1 ∧
    (hermine_interpolating_polynomial 0 1 0 1 1 1).eval 1 = 1 := by
  have h := C7_linear_extrapolation 0 1 0 1 1 1 (by norm_num)
  exact ⟨h.2.1, h.2.2.1⟩

/-- Claim C9 (confirmed): loop invariant of `solve_adjoint`'s backward sweep
— at entry of every iteration with index `k = Nt - d < Nt`, the scratch field
`theta_next` holds `evolution[k]` and `theta_next_` holds `evolution[k+1]`,
maintained by the end-of-body assignments `theta_next_ ← theta_next`,
`theta_next ← theta_prev` (`adjEntry` is the state the full sweep reaches
after `d` bodies); consequently enabling the commented-out assignment
`theta_next_.vector().set_local(evolution[k+1])` leaves the returned adjoint
trajectory (and substitution trace) unchanged. -/
theorem C9_adjoint_invariant_skipped_assignment {α : Type}
    (asolve : α → α → ℚ → Option (α × α × ℚ) → Bool → ℚ → α)
    (ptEval : α → ℚ) (ev : ℕ → α) (ctrl : ℕ → ℚ) (Nt : ℕ) (M : ℚ)
    (rhsVoid : ℕ → Bool) (z : α) :
    (∀ d : ℕ, d < Nt →
      (adjEntry asolve ptEval ev ctrl Nt M rhsVoid false z d).theta_next =
          ev (Nt - d) ∧
      (1 ≤ d →
        (adjEntry asolve ptEval ev ctrl Nt M rhsVoid false z d).theta_next_ =
          ev (Nt - d + 1))) ∧
    (∀ d : ℕ, d ≤ Nt →
      adjRun asolve ptEval ev ctrl Nt M rhsVoid false Nt
          ⟨ev Nt, z, z, [], []⟩ =
        adjRun asolve ptEval ev ctrl Nt M rhsVoid false (Nt - d)
          (adjEntry asolve ptEval ev ctrl Nt M rhsVoid false z d)) ∧
    solve_adjointModel asolve ptEval ev ctrl Nt M rhsVoid true z =
      solve_adjointModel asolve ptEval ev ctrl Nt M rhsVoid false z := by
  refine ⟨adjEntry_inv asolve ptEval ev ctrl Nt M rhsVoid false z,
    adjRun_decompose asolve ptEval ev ctrl Nt M rhsVoid false z, ?_⟩
  unfold solve_adjointModel
  rw [adjRun_enable_irrelevant asolve ptEval ev ctrl Nt M rhsVoid Nt
    ⟨ev Nt, z, z, [], []⟩ le_rfl rfl (fun hlt => absurd hlt (lt_irrefl Nt))]

/-- Witness for C9: the invariant and the mutant equality at a concrete
three-step sweep over rational fields. -/
theorem C9_witness :
    (adjEntry ((fun a b _ _ _ _ => a + b) :
          ℚ → ℚ → ℚ → Option (ℚ × ℚ × ℚ) → Bool → ℚ → ℚ)
        (fun q => q) (fun k => (k:ℚ)) (fun _ => 0) 3 0 (fun _ => false) false
        0 1).theta_next = ((3:ℕ) - 1 : ℕ) ∧
    solve_adjointModel ((fun a b _ _ _ _ => a + b) :
          ℚ → ℚ → ℚ → Option (ℚ × ℚ × ℚ) → Bool → ℚ → ℚ)
        (fun q => q) (fun k => (k:ℚ)) (fun _ => 0) 3 0 (fun _ => false) true
        0 =
      solve_adjointModel ((fun a b _ _ _ _ => a + b) :
          ℚ → ℚ → ℚ → Option (ℚ × ℚ × ℚ) → Bool → ℚ → ℚ)
        (fun q => q) (fun k => (k:ℚ)) (fun _ => 0) 3 0 (fun _ => false) false
        0 := by
  have h := C9_adjoint_invariant_skipped_assignment
    ((fun a b _ _ _ _ => a + b) :
      ℚ → ℚ → ℚ → Option (ℚ × ℚ × ℚ) → Bool → ℚ → ℚ)
    (fun q => q) (fun k => (k:ℚ)) (fun _ => 0) 3 0 (fun _ => false) 0
  exact ⟨(h.1 1 (by norm_num)).1, h.2.2⟩

/-- Witness for C1: the crash at concrete external collaborators. -/
theorem C1_witness :
    Dj (fun l => l.sum) 1 (List.replicate 5 (List.replicate 2 0))
      (List.replicate 4 0) = none ∧
    J_weldingPointSum (fun l => l.sum)
      (List.replicate 5 (List.replicate 2 0)) = none :=
  C1_length_four_scenario_crashes (fun l => l.sum) (fun l => l.sum) 1
